import Mathlib

/-!
Verification of the tap-shippo incremental sync engine.

The definitions below are a shallow embedding of the Python sources
(primarily tap_shippo/__init__.py, plus the retry decorator shared with
tap_shippo.py).  Modelling conventions:

* JSON-like values are a first-order inductive type; arrays and objects are
  encoded as cons-chains (vnil/vcons, mnil/mcons).
* Rows (Python dicts from the API) are association lists from field names to
  values; lookup returns the first binding, assignment rewrites an existing
  key in place and appends a fresh key, matching dict semantics.
* Timestamps are integers (seconds).  Parsing an ISO-8601 string with
  pendulum is modelled as reading the integer stored in the field; a missing
  or non-timestamp object_updated field is a run-aborting error, as the
  KeyError / parse failure would be in Python.
* The HTTP layer is a function from URL strings to optional pages; a page is
  the decoded JSON body (a results array and an optional next URL).
* Generator-based code (sync_endpoint, do_sync) is modelled as functions
  returning the list of emitted messages together with the final mutated
  state; each yielded StateMessage records a snapshot of the state dict at
  yield time, which is what singer.write_message serializes.
-/

namespace TapShippo

/-- Decidable equality for Except, needed to evaluate the embedded
fallible functions on concrete inputs. -/
instance exceptDecEq {ε α : Type} [DecidableEq ε] [DecidableEq α] :
    DecidableEq (Except ε α) := fun x y =>
  match x, y with
  | Except.ok a, Except.ok b =>
      if h : a = b then isTrue (by rw [h])
      else isFalse (by intro he; cases he; exact h rfl)
  | Except.error e, Except.error f =>
      if h : e = f then isTrue (by rw [h])
      else isFalse (by intro he; cases he; exact h rfl)
  | Except.ok _, Except.error _ => isFalse (by intro he; cases he)
  | Except.error _, Except.ok _ => isFalse (by intro he; cases he)

/-- JSON-like values returned by the Shippo API.  Arrays and objects are
encoded as cons-chains so that decidable equality can be derived. -/
inductive Value where
  | null
  | str (s : String)
  | int (n : Int)
  | bool (b : Bool)
  | vnil
  | vcons (hd tl : Value)
  | mnil
  | mcons (key : String) (val rest : Value)
deriving DecidableEq

/-- A record (Python dict) as an association list of fields. -/
abbrev Row := List (String × Value)

/-- First-binding lookup, the model of dict access / dict.get. -/
def rowGet : Row → String → Option Value
  | [], _ => none
  | (k, v) :: r, key => if k = key then some v else rowGet r key

/-- Rewrite every binding of the given key in place. -/
def rowSetAll : Row → String → Value → Row
  | [], _, _ => []
  | (k, w) :: r, key, v =>
      if k = key then (k, v) :: rowSetAll r key v else (k, w) :: rowSetAll r key v

/-- Dict assignment: overwrite an existing key in place, append otherwise. -/
def rowSet (r : Row) (key : String) (v : Value) : Row :=
  if (rowGet r key).isSome then rowSetAll r key v else r ++ [(key, v)]

/-- Embedding of fix_extra_map: when the extra field equals the empty JSON
array it is coerced to the empty JSON object, otherwise the row is returned
unchanged. -/
def fix_extra_map (r : Row) : Row :=
  if rowGet r "extra" = some Value.vnil then rowSet r "extra" Value.mnil else r

/-- The update timestamp of a row: the integer stored in object_updated.
The model of pendulum.parse applied to the field value. -/
def rowUpdated (r : Row) : Option Int :=
  match rowGet r "object_updated" with
  | some (Value.int n) => some n
  | _ => none

/-- Seconds in a day, used to model pendulum day arithmetic. -/
def daySeconds : Int := 86400

/-- Embedding of the BASE_URL constant. -/
def BASE_URL : String := "https://api.goshippo.com/"

/-- Word characters of the regex class used by URL_PATTERN. -/
def isWordChar (c : Char) : Bool := c.isAlphanum || c = '_'

/-- Match a literal character list at the head of the input, returning the
remainder on success.  Used to model the anchored literal part of
URL_PATTERN. -/
def matchLiteral : List Char → List Char → Option (List Char)
  | [], rest => some rest
  | _, [] => none
  | p :: ps, c :: cs => if c = p then matchLiteral ps cs else none

/-- Embedding of parse_stream_from_url: re.match of URL_PATTERN, which is
the literal base URL followed by a captured nonempty run of word
characters.  Failure models the ValueError raised in Python. -/
def parse_stream_from_url (url : String) : Except String String :=
  match matchLiteral BASE_URL.toList url.toList with
  | none => Except.error ("Cannot determine stream from URL " ++ url)
  | some rest =>
      match rest.takeWhile isWordChar with
      | [] => Except.error ("Cannot determine stream from URL " ++ url)
      | w => Except.ok (String.mk w)

/-- Embedding of the ENDPOINTS list, in its fixed sync order. -/
def ENDPOINTS : List String :=
  [ BASE_URL ++ "transactions?results=1000"
  , BASE_URL ++ "refunds?results=1000"
  , BASE_URL ++ "shipments?results=1000"
  , BASE_URL ++ "parcels?results=1000"
  , BASE_URL ++ "addresses?results=1000" ]

/-! ### The retrying fetcher (request / authed_get with backoff.on_exception) -/

/-- Outcome of one HTTP attempt: success (2xx/3xx body decoded), an
HTTPError raised by raise_for_status carrying the response status, or a
network-level RequestException with no response attached. -/
inductive Outcome where
  | success
  | httpError (status : Nat)
  | netError
deriving DecidableEq

/-- Embedding of client_error: the exception has a response whose status
code lies in the 4xx range. -/
def client_error : Outcome → Bool
  | Outcome.httpError s => decide (400 ≤ s) && decide (s < 500)
  | _ => false

/-- Whether an attempt succeeded. -/
def isSuccess : Outcome → Bool
  | Outcome.success => true
  | _ => false

/-- Retryable failure: an exception the backoff decorator does not give up
on, i.e. a network error or a non-4xx (in particular 5xx) response. -/
def isTransient (o : Outcome) : Bool := !isSuccess o && !client_error o

/-- Delay slept by backoff.expo with factor f before the (n+2)-th attempt:
f * 2 ^ n. -/
def expoDelay (f n : Nat) : Nat := f * 2 ^ n

/-- The delays slept after the first i attempts all failed transiently. -/
def delaysUpTo (i : Nat) : List Nat := (List.range i).map (expoDelay 2)

/-- One run of the backoff.on_exception loop.  plan i is the outcome of
attempt i (0-indexed); the budget counts the attempts still allowed.
Returns the final outcome (the value returned, or the exception re-raised),
the total number of attempts made, and the list of backoff delays slept. -/
def retryAux (giveup : Outcome → Bool) (plan : Nat → Outcome) :
    Nat → Nat → Outcome × Nat × List Nat
  | i, 0 => (plan i, i, [])
  | i, r + 1 =>
      if isSuccess (plan i) then (plan i, i + 1, [])
      else if giveup (plan i) || r == 0 then (plan i, i + 1, [])
      else
        ((retryAux giveup plan (i + 1) r).1,
         (retryAux giveup plan (i + 1) r).2.1,
         expoDelay 2 i :: (retryAux giveup plan (i + 1) r).2.2)

/-- Embedding of the request function's retry behaviour: max_tries = 5,
giveup = client_error, backoff.expo with factor 2. -/
def request_model (plan : Nat → Outcome) : Outcome × Nat × List Nat :=
  retryAux client_error plan 0 5

/-! ### Pages, run state and emitted messages -/

/-- One decoded response body: the results array and the next URL
(data.get of the next field). -/
structure Page where
  results : List Row
  next : Option String
deriving DecidableEq

/-- The tap state dict.  next is the pagination resume URL; last and this
are last_start_date and this_start_date, with none modelling an absent key
or an explicit JSON null. -/
structure SyncState where
  next : Option String
  last : Option Int
  this : Option Int
deriving DecidableEq

/-- Messages emitted by the tap: schema declarations, records, and state
checkpoints.  A state message stores the snapshot of the state dict at the
moment singer.write_message serializes it. -/
inductive Msg where
  | schema (stream : String)
  | record (stream : String) (row : Row)
  | state (st : SyncState)
deriving DecidableEq

/-- Freshness filter of sync_endpoint: the row parses to a timestamp that
is at or after the bounded start. -/
def isFresh (bounded : Int) (r : Row) : Bool :=
  match rowUpdated r with
  | some u => decide (bounded ≤ u)
  | none => false

/-- The inner record loop of sync_endpoint over one results array: emit each
fresh row (after fix_extra_map); on the first stale row set the finished
flag and stop without looking at later rows.  A row whose object_updated
is missing or unparseable aborts, as in Python. -/
def processRows (stream : String) (bounded : Int) :
    List Row → Except String (List Msg × Bool)
  | [] => Except.ok ([], false)
  | r :: rs =>
      match rowUpdated r with
      | none => Except.error "cannot parse object_updated"
      | some u =>
          if bounded ≤ u then
            match processRows stream bounded rs with
            | Except.error e => Except.error e
            | Except.ok (ms, fin) =>
                Except.ok (Msg.record stream (fix_extra_map r) :: ms, fin)
          else Except.ok ([], true)

/-- The while loop of sync_endpoint: while there is a URL and the finished
flag is unset, store the URL in the state, emit a state checkpoint, fetch
the page, process its rows, and continue with the next URL.  The fuel
argument bounds the number of iterations so the embedding is total; the
statements below either hold for all fuel or are evaluated at sufficient
fuel. -/
def syncLoop (api : String → Option Page) (stream : String) (bounded : Int) :
    Nat → Option String → SyncState → Except String (List Msg × SyncState)
  | 0, _, st => Except.ok ([], st)
  | _ + 1, none, st => Except.ok ([], st)
  | fuel + 1, some url, st =>
      let st1 : SyncState := { st with next := some url }
      match api url with
      | none => Except.error ("request failed for " ++ url)
      | some page =>
          match processRows stream bounded page.results with
          | Except.error e => Except.error e
          | Except.ok (rms, fin) =>
              if fin then Except.ok (Msg.state st1 :: rms, st1)
              else
                match syncLoop api stream bounded fuel page.next st1 with
                | Except.error e => Except.error e
                | Except.ok (ms, st2) => Except.ok (Msg.state st1 :: rms ++ ms, st2)

/-- The start timestamp of sync_endpoint: last_start_date padded back two
days when present, the configured start_date otherwise. -/
def startOf (st : SyncState) (cfgStart : Int) : Int :=
  match st.last with
  | some l => l - 2 * daySeconds
  | none => cfgStart

/-- The effective filter timestamp: the start clamped to at most sixty days
before now. -/
def boundedStart (st : SyncState) (cfgStart now : Int) : Int :=
  max (startOf st cfgStart) (now - 60 * daySeconds)

/-- Embedding of sync_endpoint: emit the schema declaration for the stream
of the URL, then run the pagination loop with the bounded start. -/
def sync_endpoint (api : String → Option Page) (cfgStart now : Int) (fuel : Nat)
    (url : String) (st : SyncState) : Except String (List Msg × SyncState) :=
  match parse_stream_from_url url with
  | Except.error e => Except.error e
  | Except.ok stream =>
      match syncLoop api stream (boundedStart st cfgStart now) fuel (some url) st with
      | Except.error e => Except.error e
      | Except.ok (ms, st') => Except.ok (Msg.schema stream :: ms, st')

/-- The accumulation loop of get_starting_urls: walk the endpoint list;
on the endpoint whose stream equals the target append the resume URL, and
afterwards (found set) append every later endpoint. -/
def pickUrls (target nextUrl : String) : Bool → List String → Except String (List String)
  | _, [] => Except.ok []
  | found, u :: us =>
      match parse_stream_from_url u with
      | Except.error e => Except.error e
      | Except.ok s =>
          if s = target then
            match pickUrls target nextUrl true us with
            | Except.error e => Except.error e
            | Except.ok rest => Except.ok (nextUrl :: rest)
          else if found then
            match pickUrls target nextUrl found us with
            | Except.error e => Except.error e
            | Except.ok rest => Except.ok (u :: rest)
          else pickUrls target nextUrl false us

/-- Embedding of get_starting_urls: the full endpoint list when no resume
URL is stored, otherwise the resume URL followed by every endpoint after
the one owning it; an unmatched resume URL raises. -/
def get_starting_urls (st : SyncState) : Except String (List String) :=
  match st.next with
  | none => Except.ok ENDPOINTS
  | some nextUrl =>
      match parse_stream_from_url nextUrl with
      | Except.error e => Except.error e
      | Except.ok target =>
          match pickUrls target nextUrl false ENDPOINTS with
          | Except.error e => Except.error e
          | Except.ok [] => Except.error ("Unknown stream " ++ target)
          | Except.ok urls => Except.ok urls

/-- Fold sync_endpoint over the starting URLs, threading the state dict and
concatenating the emitted messages. -/
def syncUrls (api : String → Option Page) (cfgStart now : Int) (fuel : Nat) :
    List String → SyncState → Except String (List Msg × SyncState)
  | [], st => Except.ok ([], st)
  | u :: us, st =>
      match sync_endpoint api cfgStart now fuel u st with
      | Except.error e => Except.error e
      | Except.ok (ms, st') =>
          match syncUrls api cfgStart now fuel us st' with
          | Except.error e => Except.error e
          | Except.ok (ms2, st2) => Except.ok (ms ++ ms2, st2)

/-- Embedding of do_sync: sync every starting URL, then clear the resume
URL, promote this_start_date to last_start_date, clear this_start_date and
write the final state checkpoint. -/
def do_sync (api : String → Option Page) (cfgStart now : Int) (fuel : Nat)
    (st : SyncState) : Except String (List Msg × SyncState) :=
  match get_starting_urls st with
  | Except.error e => Except.error e
  | Except.ok urls =>
      match syncUrls api cfgStart now fuel urls st with
      | Except.error e => Except.error e
      | Except.ok (ms, st') =>
          let st2 : SyncState := { next := none, last := st'.this, this := none }
          Except.ok (ms ++ [Msg.state st2], st2)

/-- Embedding of main: set this_start_date to the current time when it is
absent or null, then run do_sync. -/
def main_model (api : String → Option Page) (cfgStart now : Int) (fuel : Nat)
    (st : SyncState) : Except String (List Msg × SyncState) :=
  let st1 : SyncState := if st.this = none then { st with this := some now } else st
  do_sync api cfgStart now fuel st1

/-! ### Observation functions on message streams -/

/-- Rows carried by the record messages of the given stream, in emission
order. -/
def recordRows (s : String) : List Msg → List Row
  | [] => []
  | Msg.record t r :: ms => if t = s then r :: recordRows s ms else recordRows s ms
  | _ :: ms => recordRows s ms

/-- All rows fetched along the page chain rooted at a URL, following next
pointers up to the fuel bound. -/
def chainRows (api : String → Option Page) : Nat → Option String → List Row
  | 0, _ => []
  | _ + 1, none => []
  | fuel + 1, some url =>
      match api url with
      | none => []
      | some page => page.results ++ chainRows api fuel page.next

/-- Whether a message is the schema declaration of the given stream. -/
def isSchemaOf (s : String) : Msg → Bool
  | Msg.schema t => t == s
  | _ => false

/-- Whether a message is a record of the given stream. -/
def isRecordOf (s : String) : Msg → Bool
  | Msg.record t _ => t == s
  | _ => false

/-- Whether a message is a state checkpoint. -/
def isStateMsg : Msg → Bool
  | Msg.state _ => true
  | _ => false

/-- Whether a message is a state checkpoint with a cleared resume URL. -/
def isNullState : Msg → Bool
  | Msg.state s1 => s1.next == none
  | _ => false

/-- Number of schema declarations of the given stream in a message list. -/
def countSchema (s : String) (ms : List Msg) : Nat :=
  (ms.filter (isSchemaOf s)).length

/-- Scanning the message list in order, the first schema-or-record message
of the given stream is the schema (vacuously true when neither occurs). -/
def schemaFirst (s : String) : List Msg → Bool
  | [] => true
  | m :: ms =>
      if isSchemaOf s m then true
      else if isRecordOf s m then false
      else schemaFirst s ms

/-- Relational description of one pagination pass: the shape of the message
trace sync_endpoint's loop emits.  Every fetched page contributes exactly
one checkpoint, emitted before the page's records and carrying the fetched
URL itself; when a page finishes without a stale row its continuation (the
following checkpoint, if any page follows) starts at that page's next-page
pointer; the loop may stop after any page (terminal page, stale row, or
fuel exhaustion in the embedding), leaving the last fetched URL in the
state. -/
inductive LoopTrace (api : String → Option Page) (stream : String) (bounded : Int) :
    Option String → SyncState → List Msg → SyncState → Prop where
  | stop (url : Option String) (st : SyncState) :
      LoopTrace api stream bounded url st [] st
  | finish (url : String) (st : SyncState) (page : Page) (rms : List Msg) :
      api url = some page →
      processRows stream bounded page.results = Except.ok (rms, true) →
      LoopTrace api stream bounded (some url) st
        (Msg.state { st with next := some url } :: rms) { st with next := some url }
  | step (url : String) (st : SyncState) (page : Page) (rms ms : List Msg)
      (st' : SyncState) :
      api url = some page →
      processRows stream bounded page.results = Except.ok (rms, false) →
      LoopTrace api stream bounded page.next { st with next := some url } ms st' →
      LoopTrace api stream bounded (some url) st
        (Msg.state { st with next := some url } :: rms ++ ms) st'

/-! ### Concrete fixtures -/

/-- The addresses endpoint, the last entity of the fixed sync order. -/
def addressesUrl : String := BASE_URL ++ "addresses?results=1000"

/-- The parcels endpoint, the fourth entity of the fixed sync order. -/
def parcelsUrl : String := BASE_URL ++ "parcels?results=1000"

/-- A stale row (timestamp 0) for the C1 counterexample. -/
def c1RowOld : Row := [("object_updated", Value.int 0)]

/-- A fresh row (timestamp 100) for the C1 counterexample. -/
def c1RowNew : Row := [("object_updated", Value.int 100), ("object_id", Value.str "x")]

/-- An API serving one addresses page whose rows are a stale row followed
by a fresh row. -/
def c1Api : String → Option Page := fun u =>
  if u = addressesUrl then some { results := [c1RowOld, c1RowNew], next := none }
  else none

/-- A state resuming at the addresses endpoint with no prior sync date. -/
def c1St : SyncState := { next := some addressesUrl, last := none, this := some 7 }

/-- Rows for the C1 witness: fresh, stale, fresh. -/
def c1wRow1 : Row := [("object_updated", Value.int 100)]

/-- The stale middle row of the C1 witness. -/
def c1wRow2 : Row := [("object_updated", Value.int 10)]

/-- The fresh final row of the C1 witness. -/
def c1wRow3 : Row := [("object_updated", Value.int 200)]

/-- An API serving one addresses page with rows fresh, stale, fresh. -/
def c1wApi : String → Option Page := fun u =>
  if u = addressesUrl then
    some { results := [c1wRow1, c1wRow2, c1wRow3], next := none }
  else none

/-- A resume URL inside the parcels entity. -/
def c4Cursor : String := "https://api.goshippo.com/parcels?results=1000&page=7"

/-- The single parcels row of the C4 counterexample. -/
def c4Row1 : Row := [("object_updated", Value.int 5)]

/-- The single addresses row of the C4 counterexample. -/
def c4Row2 : Row := [("object_updated", Value.int 6)]

/-- An API with a terminal parcels page at the resume URL and a terminal
addresses page. -/
def c4Api : String → Option Page := fun u =>
  if u = c4Cursor then some { results := [c4Row1], next := none }
  else if u = addressesUrl then some { results := [c4Row2], next := none }
  else none

/-- The resuming state of the C4 counterexample. -/
def c4St : SyncState := { next := some c4Cursor, last := some 1000, this := some 2000 }

/-- The state checkpointed at the addresses page of the C4 run. -/
def c4StA : SyncState := { next := some addressesUrl, last := some 1000, this := some 2000 }

/-- The final state of the C4 run. -/
def c4Fin : SyncState := { next := none, last := some 2000, this := none }

/-- The full message trace of the C4 run. -/
def c4Msgs : List Msg :=
  [ Msg.schema "parcels"
  , Msg.state c4St
  , Msg.record "parcels" c4Row1
  , Msg.schema "addresses"
  , Msg.state c4StA
  , Msg.record "addresses" c4Row2
  , Msg.state c4Fin ]

/-- First parcels page URL of the C5 counterexample. -/
def c5P1 : String := parcelsUrl

/-- Second (terminal) parcels page URL of the C5 counterexample. -/
def c5P2 : String := "https://api.goshippo.com/parcels?results=1000&page=2"

/-- Row of the first parcels page. -/
def c5Row1 : Row := [("object_updated", Value.int 5)]

/-- Row of the terminal parcels page. -/
def c5Row2 : Row := [("object_updated", Value.int 6)]

/-- An API with a two-page parcels entity followed by an empty terminal
addresses page. -/
def c5Api : String → Option Page := fun u =>
  if u = c5P1 then some { results := [c5Row1], next := some c5P2 }
  else if u = c5P2 then some { results := [c5Row2], next := none }
  else if u = addressesUrl then some { results := [], next := none }
  else none

/-- The starting state of the C5 run. -/
def c5St : SyncState := { next := some c5P1, last := some 1000, this := some 2000 }

/-- The checkpoint state of the terminal parcels page. -/
def c5StA : SyncState := { next := some c5P2, last := some 1000, this := some 2000 }

/-- The checkpoint state of the addresses page. -/
def c5StB : SyncState := { next := some addressesUrl, last := some 1000, this := some 2000 }

/-- The final state of the C5 run. -/
def c5Fin : SyncState := { next := none, last := some 2000, this := none }

/-- The full message trace of the C5 run. -/
def c5Msgs : List Msg :=
  [ Msg.schema "parcels"
  , Msg.state c5St
  , Msg.record "parcels" c5Row1
  , Msg.state c5StA
  , Msg.record "parcels" c5Row2
  , Msg.schema "addresses"
  , Msg.state c5StB
  , Msg.state c5Fin ]

/-- An API serving an empty terminal page for every URL, used by the C6
witness. -/
def c6Api : String → Option Page := fun _ => some { results := [], next := none }

/-- The checkpoint state of the C6 witness run at a given URL. -/
def c6StAt (u : String) : SyncState := { next := some u, last := some 5, this := some 9 }

/-- The full message trace of the C6 witness run over all five empty
endpoints. -/
def c6Msgs : List Msg :=
  [ Msg.schema "transactions", Msg.state (c6StAt (BASE_URL ++ "transactions?results=1000"))
  , Msg.schema "refunds", Msg.state (c6StAt (BASE_URL ++ "refunds?results=1000"))
  , Msg.schema "shipments", Msg.state (c6StAt (BASE_URL ++ "shipments?results=1000"))
  , Msg.schema "parcels", Msg.state (c6StAt (BASE_URL ++ "parcels?results=1000"))
  , Msg.schema "addresses", Msg.state (c6StAt (BASE_URL ++ "addresses?results=1000"))
  , Msg.state { next := none, last := some 9, this := none } ]

/-! ### Row lemmas -/

lemma rowGet_rowSetAll_ne (r : Row) (key v k) (hk : k ≠ key) :
    rowGet (rowSetAll r key v) k = rowGet r k := by
  induction r with
  | nil => rfl
  | cons p r ih =>
      obtain ⟨k1, w⟩ := p
      by_cases h1 : k1 = key
      · subst h1
        have hne : ¬k1 = k := fun h => hk h.symm
        simp [rowSetAll, rowGet, hne, ih]
      · by_cases h2 : k1 = k <;> simp [rowSetAll, rowGet, h1, h2, hk, ih]

lemma rowGet_rowSetAll_self (r : Row) (key v) (h : (rowGet r key).isSome) :
    rowGet (rowSetAll r key v) key = some v := by
  induction r with
  | nil => simp [rowGet] at h
  | cons p r ih =>
      obtain ⟨k1, w⟩ := p
      by_cases h1 : k1 = key
      · subst h1
        simp [rowSetAll, rowGet]
      · simp [rowGet, h1] at h
        simp [rowSetAll, rowGet, h1, ih h]

lemma rowGet_fix_extra_map_ne (r : Row) (k : String) (hk : k ≠ "extra") :
    rowGet (fix_extra_map r) k = rowGet r k := by
  unfold fix_extra_map rowSet
  by_cases h : rowGet r "extra" = some Value.vnil
  · rw [if_pos h, if_pos (by rw [h]; rfl)]
    exact rowGet_rowSetAll_ne r "extra" Value.mnil k hk
  · rw [if_neg h]

lemma rowUpdated_fix_extra_map (r : Row) :
    rowUpdated (fix_extra_map r) = rowUpdated r := by
  unfold rowUpdated
  rw [rowGet_fix_extra_map_ne r "object_updated" (by decide)]

/-! ### Parsing the concrete endpoints -/

lemma parse_endpoint_transactions :
    parse_stream_from_url (BASE_URL ++ "transactions?results=1000") =
      Except.ok "transactions" := by decide

lemma parse_endpoint_refunds :
    parse_stream_from_url (BASE_URL ++ "refunds?results=1000") =
      Except.ok "refunds" := by decide

lemma parse_endpoint_shipments :
    parse_stream_from_url (BASE_URL ++ "shipments?results=1000") =
      Except.ok "shipments" := by decide

lemma parse_endpoint_parcels :
    parse_stream_from_url (BASE_URL ++ "parcels?results=1000") =
      Except.ok "parcels" := by decide

lemma parse_endpoint_addresses :
    parse_stream_from_url (BASE_URL ++ "addresses?results=1000") =
      Except.ok "addresses" := by decide

lemma pickUrls_transactions (nxt : String) :
    pickUrls "transactions" nxt false ENDPOINTS = Except.ok (nxt :: ENDPOINTS.drop 1) := rfl

lemma pickUrls_refunds (nxt : String) :
    pickUrls "refunds" nxt false ENDPOINTS = Except.ok (nxt :: ENDPOINTS.drop 2) := rfl

lemma pickUrls_shipments (nxt : String) :
    pickUrls "shipments" nxt false ENDPOINTS = Except.ok (nxt :: ENDPOINTS.drop 3) := rfl

lemma pickUrls_parcels (nxt : String) :
    pickUrls "parcels" nxt false ENDPOINTS = Except.ok (nxt :: ENDPOINTS.drop 4) := rfl

lemma pickUrls_addresses (nxt : String) :
    pickUrls "addresses" nxt false ENDPOINTS = Except.ok [nxt] := rfl

/-! ### Retry lemmas -/

lemma client_error_not_success (o : Outcome) (h : client_error o = true) :
    isSuccess o = false := by
  cases o <;> simp_all [client_error, isSuccess]

lemma isTransient_parts (o : Outcome) (h : isTransient o = true) :
    isSuccess o = false ∧ client_error o = false := by
  unfold isTransient at h
  rw [Bool.and_eq_true, Bool.not_eq_true', Bool.not_eq_true'] at h
  exact h

lemma retryAux_attempts_le (g : Outcome → Bool) (plan : Nat → Outcome) :
    ∀ r i, (retryAux g plan i r).2.1 ≤ i + r := by
  intro r
  induction r with
  | zero => intro i; simp [retryAux]
  | succ r ih =>
      intro i
      unfold retryAux
      by_cases hs : isSuccess (plan i)
      · rw [if_pos hs]; simp
      · rw [if_neg hs]
        by_cases hg : (g (plan i) || r == 0) = true
        · rw [if_pos hg]; simp
        · rw [if_neg hg]
          show (retryAux g plan (i + 1) r).2.1 ≤ i + (r + 1)
          have := ih (i + 1)
          omega

lemma retryAux_step (plan : Nat → Outcome) (i r : Nat)
    (h : isTransient (plan i) = true) (hr : r ≠ 0) :
    retryAux client_error plan i (r + 1) =
      ((retryAux client_error plan (i + 1) r).1,
       (retryAux client_error plan (i + 1) r).2.1,
       expoDelay 2 i :: (retryAux client_error plan (i + 1) r).2.2) := by
  obtain ⟨hs, hc⟩ := isTransient_parts _ h
  cases r with
  | zero => exact absurd rfl hr
  | succ r' => simp [retryAux, hs, hc]

lemma delaysUpTo_succ (i : Nat) :
    delaysUpTo (i + 1) = delaysUpTo i ++ [expoDelay 2 i] := by
  unfold delaysUpTo
  rw [List.range_succ, List.map_append]
  rfl

lemma retryAux_reach (plan : Nat → Outcome) :
    ∀ i r, (∀ j, j < i → isTransient (plan j) = true) → i + r = 5 → 1 ≤ r →
      request_model plan =
        ((retryAux client_error plan i r).1,
         (retryAux client_error plan i r).2.1,
         delaysUpTo i ++ (retryAux client_error plan i r).2.2) := by
  intro i
  induction i with
  | zero =>
      intro r _ h5 _
      have : r = 5 := by omega
      subst this
      simp [request_model, delaysUpTo]
  | succ i ih =>
      intro r hj h5 hr
      have hstep := retryAux_step plan i r (hj i (Nat.lt_succ_self i)) (by omega)
      have hih := ih (r + 1) (fun j hjlt => hj j (Nat.lt_succ_of_lt hjlt)) (by omega) (by omega)
      rw [hih, hstep, delaysUpTo_succ]
      simp

/-- Claim C3: the fetch operation retries transient failures (network
errors and non-4xx responses such as 5xx) up to at most 5 attempts with
exponential backoff of multiplicative factor 2, and a 4xx response is never
retried: it is raised by the first attempt that observes it. -/
theorem c3_retry_policy :
    (∀ plan, (request_model plan).2.1 ≤ 5)
    ∧ (∀ plan i, i < 5 → (∀ j, j < i → isTransient (plan j) = true) →
        client_error (plan i) = true →
        request_model plan = (plan i, i + 1, delaysUpTo i))
    ∧ (∀ plan i, i < 5 → (∀ j, j < i → isTransient (plan j) = true) →
        plan i = Outcome.success →
        request_model plan = (Outcome.success, i + 1, delaysUpTo i))
    ∧ (∀ plan, (∀ j, j < 5 → isTransient (plan j) = true) →
        request_model plan = (plan 4, 5, [2, 4, 8, 16]))
    ∧ client_error (Outcome.httpError 503) = false
    ∧ client_error Outcome.netError = false
    ∧ (∀ s, 400 ≤ s → s < 500 → client_error (Outcome.httpError s) = true)
    ∧ (∀ n, expoDelay 2 (n + 1) = 2 * expoDelay 2 n) := by
  refine ⟨?_, ?_, ?_, ?_, by decide, by decide, ?_, ?_⟩
  · intro plan
    have := retryAux_attempts_le client_error plan 5 0
    simpa [request_model] using this
  · intro plan i hi hj hc
    have hreach := retryAux_reach plan i (5 - i) hj (by omega) (by omega)
    have hstop : retryAux client_error plan i (5 - i) = (plan i, i + 1, []) := by
      obtain ⟨r', hr'⟩ : ∃ r', 5 - i = r' + 1 := ⟨5 - i - 1, by omega⟩
      rw [hr']
      simp [retryAux, client_error_not_success _ hc, hc]
    rw [hreach, hstop]
    simp
  · intro plan i hi hj hsucc
    have hreach := retryAux_reach plan i (5 - i) hj (by omega) (by omega)
    have hstop : retryAux client_error plan i (5 - i) = (Outcome.success, i + 1, []) := by
      obtain ⟨r', hr'⟩ : ∃ r', 5 - i = r' + 1 := ⟨5 - i - 1, by omega⟩
      rw [hr']
      simp [retryAux, hsucc, isSuccess]
    rw [hreach, hstop]
    simp
  · intro plan hj
    have hreach := retryAux_reach plan 4 1 (fun j hjlt => hj j (by omega)) (by omega)
      (by omega)
    have hstop : retryAux client_error plan 4 1 = (plan 4, 5, []) := by
      obtain ⟨hs, hc⟩ := isTransient_parts _ (hj 4 (by omega))
      simp [retryAux, hs, hc]
    rw [hreach, hstop]
    show (plan 4, 5, delaysUpTo 4 ++ []) = (plan 4, 5, [2, 4, 8, 16])
    rw [show delaysUpTo 4 ++ ([] : List Nat) = [2, 4, 8, 16] from by decide]
  · intro s h1 h2
    simp [client_error, h1, h2]
  · intro n
    unfold expoDelay
    ring

/-- Witness for C3: a plan whose first attempt is a network error and whose
second attempt observes a 404 stops after exactly two attempts, re-raising
the 404, having slept one backoff delay of 2. -/
theorem c3_retry_policy_witness :
    (1 : Nat) < 5
    ∧ (∀ j, j < 1 →
        isTransient ((fun i => if i = 0 then Outcome.netError else Outcome.httpError 404) j) =
          true)
    ∧ client_error
        ((fun i => if i = 0 then Outcome.netError else Outcome.httpError 404) 1) = true
    ∧ request_model (fun i => if i = 0 then Outcome.netError else Outcome.httpError 404) =
        (Outcome.httpError 404, 2, [2]) := by
  refine ⟨by decide, ?_, by decide, ?_⟩
  · intro j hj
    interval_cases j
    decide
  · have := c3_retry_policy.2.1
      (fun i => if i = 0 then Outcome.netError else Outcome.httpError 404) 1
      (by decide) (fun j hj => by interval_cases j; decide) (by decide)
    simpa [delaysUpTo, expoDelay] using this

/-- Claim C7 (counterexample): entity_of applied to the URL
https://api.example.com/addresses?results=10&page=2 does not return
addresses; the URL pattern is anchored at the literal host
api.goshippo.com, so the parse fails instead. -/
theorem c7_counterexample :
    parse_stream_from_url "https://api.example.com/addresses?results=10&page=2" =
      Except.error
        "Cannot determine stream from URL https://api.example.com/addresses?results=10&page=2"
    ∧ parse_stream_from_url "https://api.example.com/addresses?results=10&page=2" ≠
        Except.ok "addresses" := by decide

/-- Claim C7 (amended): entity_of applied to a URL on the recognized host,
https://api.goshippo.com/addresses?results=10&page=2, returns addresses,
and applied to a URL that does not match the recognized endpoint pattern
(such as foobar, or any URL on a different host) it fails. -/
theorem c7_amended :
    parse_stream_from_url "https://api.goshippo.com/addresses?results=10&page=2" =
      Except.ok "addresses"
    ∧ parse_stream_from_url "foobar" =
        Except.error "Cannot determine stream from URL foobar" := by decide

lemma isFresh_true_of (bounded : Int) (r : Row) (u : Int) (hu : rowUpdated r = some u)
    (hb : bounded ≤ u) : isFresh bounded r = true := by
  simp [isFresh, hu, hb]

lemma isFresh_false_of (bounded : Int) (r : Row) (u : Int) (hu : rowUpdated r = some u)
    (hb : ¬bounded ≤ u) : isFresh bounded r = false := by
  simp [isFresh, hu, hb]

lemma mem_of_mem_takeWhile {α : Type} (p : α → Bool) :
    ∀ (l : List α) (a : α), a ∈ l.takeWhile p → a ∈ l := by
  intro l
  induction l with
  | nil => intro a h; simp [List.takeWhile] at h
  | cons x xs ih =>
      intro a h
      by_cases hp : p x
      · rw [List.takeWhile_cons, if_pos hp] at h
        rcases List.mem_cons.mp h with h1 | h1
        · exact h1 ▸ List.mem_cons_self x xs
        · exact List.mem_cons_of_mem x (ih a h1)
      · rw [List.takeWhile_cons, if_neg hp] at h
        simp at h

/-- Characterisation of the page-record loop: on success the emitted
messages are exactly the record messages of the fresh rows up to the first
stale one, and the finished flag is set exactly when some row was stale. -/
lemma processRows_spec (stream : String) (bounded : Int) :
    ∀ rows ms fin, processRows stream bounded rows = Except.ok (ms, fin) →
      ms = (rows.takeWhile (isFresh bounded)).map
          (fun r => Msg.record stream (fix_extra_map r))
        ∧ fin = !rows.all (isFresh bounded) := by
  intro rows
  induction rows with
  | nil =>
      intro ms fin h
      simp only [processRows, Except.ok.injEq, Prod.mk.injEq] at h
      obtain ⟨h1, h2⟩ := h
      subst h1
      subst h2
      simp
  | cons r rs ih =>
      intro ms fin h
      cases hu : rowUpdated r with
      | none => simp [processRows, hu] at h
      | some u =>
          by_cases hb : bounded ≤ u
          · cases hrec : processRows stream bounded rs with
            | error e => simp [processRows, hu, hb, hrec] at h
            | ok p =>
                obtain ⟨ms', fin'⟩ := p
                simp [processRows, hu, hb, hrec] at h
                obtain ⟨h1, h2⟩ := h
                subst h1
                subst h2
                obtain ⟨ihms, ihfin⟩ := ih ms' fin' hrec
                have hf := isFresh_true_of bounded r u hu hb
                constructor
                · rw [List.takeWhile_cons, if_pos hf, List.map_cons, ihms]
                · rw [List.all_cons, hf, Bool.true_and, ihfin]
          · simp [processRows, hu, hb] at h
            obtain ⟨h1, h2⟩ := h
            subst h1
            subst h2
            have hf := isFresh_false_of bounded r u hu hb
            constructor
            · rw [List.takeWhile_cons, if_neg (by rw [hf]; exact Bool.false_ne_true)]
              rfl
            · rw [List.all_cons, hf, Bool.false_and]
              rfl

lemma get_starting_urls_some (nxt : String) (l t : Option Int) :
    get_starting_urls { next := some nxt, last := l, this := t } =
      match parse_stream_from_url nxt with
      | Except.error e => Except.error e
      | Except.ok target =>
          match pickUrls target nxt false ENDPOINTS with
          | Except.error e => Except.error e
          | Except.ok [] => Except.error ("Unknown stream " ++ target)
          | Except.ok urls => Except.ok urls := rfl

/-- Claim C2: get_starting_urls on a state with no resume URL returns the
full fixed sync order; on a resume URL owned by the last entity
(addresses) it returns only that URL; on a resume URL owned by any earlier
entity it returns that URL followed by exactly the endpoints strictly after
that entity, excluding all endpoints before it. -/
theorem c2_resume_order :
    (∀ l t, get_starting_urls { next := none, last := l, this := t } = Except.ok ENDPOINTS)
    ∧ (∀ nxt l t, parse_stream_from_url nxt = Except.ok "addresses" →
        get_starting_urls { next := some nxt, last := l, this := t } = Except.ok [nxt])
    ∧ (∀ nxt l t, parse_stream_from_url nxt = Except.ok "refunds" →
        get_starting_urls { next := some nxt, last := l, this := t } =
          Except.ok (nxt :: ENDPOINTS.drop 2))
    ∧ (∀ nxt l t, parse_stream_from_url nxt = Except.ok "shipments" →
        get_starting_urls { next := some nxt, last := l, this := t } =
          Except.ok (nxt :: ENDPOINTS.drop 3))
    ∧ (∀ nxt l t, parse_stream_from_url nxt = Except.ok "parcels" →
        get_starting_urls { next := some nxt, last := l, this := t } =
          Except.ok (nxt :: ENDPOINTS.drop 4))
    ∧ (∀ nxt l t, parse_stream_from_url nxt = Except.ok "transactions" →
        get_starting_urls { next := some nxt, last := l, this := t } =
          Except.ok (nxt :: ENDPOINTS.drop 1)) := by
  refine ⟨fun l t => rfl, ?_, ?_, ?_, ?_, ?_⟩ <;>
    intro nxt l t h <;>
    rw [get_starting_urls_some, h] <;>
    rfl

/-- Witness for C2: a concrete shipments resume URL yields the shipments
cursor followed by the parcels and addresses endpoints. -/
theorem c2_resume_order_witness :
    parse_stream_from_url "https://api.goshippo.com/shipments?results=1000&page=2" =
      Except.ok "shipments"
    ∧ get_starting_urls
        { next := some "https://api.goshippo.com/shipments?results=1000&page=2",
          last := none, this := none } =
        Except.ok ("https://api.goshippo.com/shipments?results=1000&page=2"
          :: ENDPOINTS.drop 3) :=
  ⟨by decide,
    c2_resume_order.2.2.2.1 "https://api.goshippo.com/shipments?results=1000&page=2"
      none none (by decide)⟩

/-- Claim C10: the emitted row is the fetched row with the extra field
coerced from the empty array to the empty map, and with no other change:
lookups at every other key are unchanged, a row whose extra field is not
the empty array passes through entirely unchanged, and every record
message produced by the page loop carries exactly fix_extra_map of a
fetched row. -/
theorem c10_fix_extra :
    (∀ r k, k ≠ "extra" → rowGet (fix_extra_map r) k = rowGet r k)
    ∧ (∀ r, rowGet r "extra" = some Value.vnil →
        rowGet (fix_extra_map r) "extra" = some Value.mnil)
    ∧ (∀ r, rowGet r "extra" ≠ some Value.vnil → fix_extra_map r = r)
    ∧ (∀ stream bounded rows ms fin,
        processRows stream bounded rows = Except.ok (ms, fin) →
        ∀ s row, Msg.record s row ∈ ms →
          ∃ r, r ∈ rows ∧ s = stream ∧ row = fix_extra_map r) := by
  refine ⟨?_, ?_, ?_, ?_⟩
  · exact fun r k hk => rowGet_fix_extra_map_ne r k hk
  · intro r h
    unfold fix_extra_map rowSet
    rw [if_pos h, if_pos (by rw [h]; rfl)]
    exact rowGet_rowSetAll_self r "extra" Value.mnil (by rw [h]; rfl)
  · intro r h
    unfold fix_extra_map
    rw [if_neg h]
  · intro stream bounded rows ms fin h s row hmem
    obtain ⟨hms, _⟩ := processRows_spec stream bounded rows ms fin h
    subst hms
    obtain ⟨r, hr, hrec⟩ := List.mem_map.mp hmem
    injection hrec with h1 h2
    exact ⟨r, mem_of_mem_takeWhile (isFresh bounded) rows r hr, h1.symm, h2.symm⟩

/-- Witness for C10: a concrete row with an empty-array extra field is
emitted with an empty-object extra field and untouched other fields, and a
row with a non-empty extra field passes through unchanged. -/
theorem c10_fix_extra_witness :
    ("name" ≠ "extra"
      ∧ rowGet (fix_extra_map [("object_updated", Value.int 3), ("extra", Value.vnil),
          ("name", Value.str "a")]) "name" =
        rowGet [("object_updated", Value.int 3), ("extra", Value.vnil),
          ("name", Value.str "a")] "name")
    ∧ (rowGet [("extra", Value.mnil)] "extra" ≠ some Value.vnil
      ∧ fix_extra_map [("extra", Value.mnil)] = [("extra", Value.mnil)])
    ∧ (processRows "addresses" 0 [[("object_updated", Value.int 3), ("extra", Value.vnil)]] =
        Except.ok
          ([Msg.record "addresses" [("object_updated", Value.int 3), ("extra", Value.mnil)]],
            false)
      ∧ ∃ r, r ∈ [[("object_updated", Value.int 3), ("extra", Value.vnil)]]
          ∧ "addresses" = "addresses"
          ∧ [("object_updated", Value.int 3), ("extra", Value.mnil)] = fix_extra_map r) := by
  refine ⟨⟨by decide, c10_fix_extra.1 _ "name" (by decide)⟩,
    ⟨by decide, c10_fix_extra.2.2.1 _ (by decide)⟩,
    ⟨by decide, ?_⟩⟩
  have h := c10_fix_extra.2.2.2 "addresses" 0
    [[("object_updated", Value.int 3), ("extra", Value.vnil)]]
    [Msg.record "addresses" [("object_updated", Value.int 3), ("extra", Value.mnil)]]
    false (by decide) "addresses"
    [("object_updated", Value.int 3), ("extra", Value.mnil)] (by decide)
  obtain ⟨r, hr, _, hrow⟩ := h
  exact ⟨r, hr, rfl, hrow⟩

/-! ### Counterexamples for C1, C4 and C5 -/

/-- Claim C1 (counterexample): a fetched addresses page holds a stale row
followed by a fresh row whose object_updated (100) is at or after the
pre-pass watermark (boundedStart evaluates to 50); the pass emits no record
message at all, because the loop breaks on the first stale row, so a record
with timestamp at or after the watermark is not emitted even once. -/
theorem c1_counterexample :
    sync_endpoint c1Api 50 50 10 addressesUrl c1St =
      Except.ok ([Msg.schema "addresses", Msg.state c1St], c1St)
    ∧ c1Api addressesUrl = some { results := [c1RowOld, c1RowNew], next := none }
    ∧ rowUpdated c1RowNew = some 100
    ∧ boundedStart c1St 50 50 = 50
    ∧ boundedStart c1St 50 50 ≤ 100
    ∧ [Msg.schema "addresses", Msg.state c1St].filter (isRecordOf "addresses") = [] := by
  refine ⟨by decide, by decide, by decide, by decide, by decide, by decide⟩

/-- Claim C4 (counterexample): in a run over parcels (resumed at a cursor)
then addresses, the terminal parcels page (no next pointer) is processed at
message index 2, and the very next message is the addresses schema: no
checkpoint at all — in particular none with a null resume URL — is emitted
between the parcels terminal page and the next entity, and the only
checkpoint of the whole run whose resume URL is null is the final
end-of-run checkpoint. -/
theorem c4_counterexample :
    do_sync c4Api 0 0 10 c4St = Except.ok (c4Msgs, c4Fin)
    ∧ c4Api c4Cursor = some { results := [c4Row1], next := none }
    ∧ c4Msgs[2]? = some (Msg.record "parcels" c4Row1)
    ∧ c4Msgs[3]? = some (Msg.schema "addresses")
    ∧ (c4Msgs.take 6).filter isNullState = []
    ∧ c4Msgs.filter isNullState = [Msg.state c4Fin] := by
  refine ⟨by decide, by decide, by decide, by decide, by decide, by decide⟩

/-- Claim C5 (counterexample): the terminal parcels page (fetched at c5P2,
next pointer null) is processed at message index 4, but the next checkpoint
emitted after it carries the addresses endpoint URL, not that page's null
next-page pointer; no checkpoint whose cursor equals the terminal page's
next pointer is emitted before the next entity begins. -/
theorem c5_counterexample :
    do_sync c5Api 0 0 10 c5St = Except.ok (c5Msgs, c5Fin)
    ∧ c5Api c5P2 = some { results := [c5Row2], next := none }
    ∧ c5Msgs[4]? = some (Msg.record "parcels" c5Row2)
    ∧ ((c5Msgs.drop 5).filter isStateMsg).head? = some (Msg.state c5StB)
    ∧ c5StB.next = some addressesUrl
    ∧ some addressesUrl ≠ (none : Option String) := by
  refine ⟨by decide, by decide, by decide, by decide, by decide, by decide⟩

/-! ### Inversion lemmas for the pagination loop -/

lemma syncLoop_zero_inv (api : String → Option Page) (stream : String) (bounded : Int)
    (url : Option String) (st : SyncState) (ms : List Msg) (st' : SyncState)
    (h : syncLoop api stream bounded 0 url st = Except.ok (ms, st')) :
    ms = [] ∧ st' = st := by
  simp only [syncLoop, Except.ok.injEq, Prod.mk.injEq] at h
  exact ⟨h.1.symm, h.2.symm⟩

lemma syncLoop_none_inv (api : String → Option Page) (stream : String) (bounded : Int)
    (fuel : Nat) (st : SyncState) (ms : List Msg) (st' : SyncState)
    (h : syncLoop api stream bounded (fuel + 1) none st = Except.ok (ms, st')) :
    ms = [] ∧ st' = st := by
  simp only [syncLoop, Except.ok.injEq, Prod.mk.injEq] at h
  exact ⟨h.1.symm, h.2.symm⟩

lemma syncLoop_some_inv (api : String → Option Page) (stream : String) (bounded : Int)
    (fuel : Nat) (url : String) (st : SyncState) (ms : List Msg) (st' : SyncState)
    (h : syncLoop api stream bounded (fuel + 1) (some url) st = Except.ok (ms, st')) :
    ∃ page rms fin,
      api url = some page ∧
      processRows stream bounded page.results = Except.ok (rms, fin) ∧
      ((fin = true ∧ ms = Msg.state { st with next := some url } :: rms ∧
          st' = { st with next := some url }) ∨
        (fin = false ∧ ∃ ms2,
          syncLoop api stream bounded fuel page.next { st with next := some url } =
            Except.ok (ms2, st') ∧
          ms = Msg.state { st with next := some url } :: rms ++ ms2)) := by
  cases hapi : api url with
  | none => simp [syncLoop, hapi] at h
  | some page =>
      cases hrec : processRows stream bounded page.results with
      | error e => simp [syncLoop, hapi, hrec] at h
      | ok p =>
          obtain ⟨rms, fin⟩ := p
          cases fin with
          | true =>
              simp [syncLoop, hapi, hrec] at h
              exact ⟨page, rms, true, rfl, hrec,
                Or.inl ⟨rfl, h.1.symm, h.2.symm⟩⟩
          | false =>
              cases hrec2 : syncLoop api stream bounded fuel page.next
                  { st with next := some url } with
              | error e => simp [syncLoop, hapi, hrec, hrec2] at h
              | ok p2 =>
                  obtain ⟨ms2, st2⟩ := p2
                  simp [syncLoop, hapi, hrec, hrec2] at h
                  exact ⟨page, rms, false, rfl, hrec,
                    Or.inr ⟨rfl, ms2, by rw [hrec2, h.2], h.1.symm⟩⟩

lemma sync_endpoint_ok_inv (api : String → Option Page) (cfgStart now : Int)
    (fuel : Nat) (url : String) (st : SyncState) (ms : List Msg) (st' : SyncState)
    (h : sync_endpoint api cfgStart now fuel url st = Except.ok (ms, st')) :
    ∃ s ms1, parse_stream_from_url url = Except.ok s ∧
      ms = Msg.schema s :: ms1 ∧
      syncLoop api s (boundedStart st cfgStart now) fuel (some url) st =
        Except.ok (ms1, st') := by
  cases hp : parse_stream_from_url url with
  | error e => simp [sync_endpoint, hp] at h
  | ok s =>
      cases hl : syncLoop api s (boundedStart st cfgStart now) fuel (some url) st with
      | error e => simp [sync_endpoint, hp, hl] at h
      | ok p =>
          obtain ⟨ms1, st1⟩ := p
          simp [sync_endpoint, hp, hl] at h
          exact ⟨s, ms1, rfl, h.1.symm, by rw [hl, h.2]⟩

lemma syncUrls_nil_inv (api : String → Option Page) (cfgStart now : Int) (fuel : Nat)
    (st : SyncState) (ms : List Msg) (st' : SyncState)
    (h : syncUrls api cfgStart now fuel [] st = Except.ok (ms, st')) :
    ms = [] ∧ st' = st := by
  simp only [syncUrls, Except.ok.injEq, Prod.mk.injEq] at h
  exact ⟨h.1.symm, h.2.symm⟩

lemma syncUrls_cons_inv (api : String → Option Page) (cfgStart now : Int) (fuel : Nat)
    (u : String) (us : List String) (st : SyncState) (ms : List Msg) (st' : SyncState)
    (h : syncUrls api cfgStart now fuel (u :: us) st = Except.ok (ms, st')) :
    ∃ ms1 st1 ms2,
      sync_endpoint api cfgStart now fuel u st = Except.ok (ms1, st1) ∧
      syncUrls api cfgStart now fuel us st1 = Except.ok (ms2, st') ∧
      ms = ms1 ++ ms2 := by
  cases h1 : sync_endpoint api cfgStart now fuel u st with
  | error e => simp [syncUrls, h1] at h
  | ok p1 =>
      obtain ⟨ms1, st1⟩ := p1
      cases h2 : syncUrls api cfgStart now fuel us st1 with
      | error e => simp [syncUrls, h1, h2] at h
      | ok p2 =>
          obtain ⟨ms2, st2⟩ := p2
          simp [syncUrls, h1, h2] at h
          exact ⟨ms1, st1, ms2, rfl, by rw [h2, h.2], h.1.symm⟩

lemma do_sync_ok_inv (api : String → Option Page) (cfgStart now : Int) (fuel : Nat)
    (st : SyncState) (ms : List Msg) (st2 : SyncState)
    (h : do_sync api cfgStart now fuel st = Except.ok (ms, st2)) :
    ∃ urls msu st',
      get_starting_urls st = Except.ok urls ∧
      syncUrls api cfgStart now fuel urls st = Except.ok (msu, st') ∧
      ms = msu ++ [Msg.state st2] ∧
      st2 = { next := none, last := st'.this, this := none } := by
  cases hg : get_starting_urls st with
  | error e => simp [do_sync, hg] at h
  | ok urls =>
      cases hs : syncUrls api cfgStart now fuel urls st with
      | error e => simp [do_sync, hg, hs] at h
      | ok p =>
          obtain ⟨msu, st'⟩ := p
          simp [do_sync, hg, hs] at h
          obtain ⟨h1, h2⟩ := h
          refine ⟨urls, msu, st', rfl, hs, ?_, h2.symm⟩
          rw [← h1, h2]

/-! ### The amended C1: emission is the fresh prefix of the fetched rows -/

lemma takeWhile_eq_self_of_all {α : Type} (p : α → Bool) :
    ∀ xs : List α, xs.all p = true → xs.takeWhile p = xs := by
  intro xs
  induction xs with
  | nil => intro _; rfl
  | cons x xs ih =>
      intro h
      rw [List.all_cons, Bool.and_eq_true] at h
      rw [List.takeWhile_cons, if_pos h.1, ih h.2]

lemma takeWhile_append_of_all {α : Type} (p : α → Bool) :
    ∀ xs ys : List α, xs.all p = true → (xs ++ ys).takeWhile p = xs ++ ys.takeWhile p := by
  intro xs ys
  induction xs with
  | nil => intro _; rfl
  | cons x xs ih =>
      intro h
      rw [List.all_cons, Bool.and_eq_true] at h
      rw [List.cons_append, List.takeWhile_cons, if_pos h.1, ih h.2, List.cons_append]

lemma takeWhile_append_of_not_all {α : Type} (p : α → Bool) :
    ∀ xs ys : List α, xs.all p = false → (xs ++ ys).takeWhile p = xs.takeWhile p := by
  intro xs ys
  induction xs with
  | nil => intro h; simp at h
  | cons x xs ih =>
      intro h
      rw [List.all_cons, Bool.and_eq_false_iff] at h
      rcases h with h | h
      · rw [List.cons_append, List.takeWhile_cons, if_neg (by rw [h]; exact Bool.false_ne_true),
          List.takeWhile_cons, if_neg (by rw [h]; exact Bool.false_ne_true)]
      · by_cases hx : p x
        · rw [List.cons_append, List.takeWhile_cons, if_pos hx, List.takeWhile_cons,
            if_pos hx, ih h]
        · rw [List.cons_append, List.takeWhile_cons, if_neg hx, List.takeWhile_cons, if_neg hx]

lemma recordRows_state_cons (s : String) (st1 : SyncState) (ms : List Msg) :
    recordRows s (Msg.state st1 :: ms) = recordRows s ms := rfl

lemma recordRows_schema_cons (s t : String) (ms : List Msg) :
    recordRows s (Msg.schema t :: ms) = recordRows s ms := rfl

lemma recordRows_record_cons (s t : String) (r : Row) (ms : List Msg) :
    recordRows s (Msg.record t r :: ms) =
      if t = s then r :: recordRows s ms else recordRows s ms := rfl

lemma recordRows_append (s : String) :
    ∀ a b : List Msg, recordRows s (a ++ b) = recordRows s a ++ recordRows s b := by
  intro a b
  induction a with
  | nil => rfl
  | cons m a ih =>
      cases m with
      | schema t => rw [List.cons_append, recordRows_schema_cons, recordRows_schema_cons, ih]
      | record t r =>
          rw [List.cons_append, recordRows_record_cons, recordRows_record_cons]
          by_cases ht : t = s
          · rw [if_pos ht, if_pos ht, ih, List.cons_append]
          · rw [if_neg ht, if_neg ht, ih]
      | state st1 => rw [List.cons_append, recordRows_state_cons, recordRows_state_cons, ih]

lemma recordRows_map_fix (s : String) :
    ∀ rows : List Row,
      recordRows s (rows.map (fun r => Msg.record s (fix_extra_map r))) =
        rows.map fix_extra_map := by
  intro rows
  induction rows with
  | nil => rfl
  | cons r rows ih => rw [List.map_cons, recordRows_record_cons, if_pos rfl, ih, List.map_cons]

lemma chainRows_some (api : String → Option Page) (fuel : Nat) (url : String)
    (page : Page) (hapi : api url = some page) :
    chainRows api (fuel + 1) (some url) = page.results ++ chainRows api fuel page.next := by
  simp [chainRows, hapi]

/-- The record messages of a successful pagination loop are exactly the
fresh prefix of the rows fetched along the page chain, each passed through
fix_extra_map. -/
lemma syncLoop_records (api : String → Option Page) (stream : String) (bounded : Int) :
    ∀ fuel url st ms st',
      syncLoop api stream bounded fuel url st = Except.ok (ms, st') →
      recordRows stream ms =
        ((chainRows api fuel url).takeWhile (isFresh bounded)).map fix_extra_map := by
  intro fuel
  induction fuel with
  | zero =>
      intro url st ms st' h
      obtain ⟨h1, _⟩ := syncLoop_zero_inv api stream bounded url st ms st' h
      subst h1
      rfl
  | succ fuel ih =>
      intro url st ms st' h
      cases url with
      | none =>
          obtain ⟨h1, _⟩ := syncLoop_none_inv api stream bounded fuel st ms st' h
          subst h1
          rfl
      | some url =>
          obtain ⟨page, rms, fin, hapi, hrec, hcase⟩ :=
            syncLoop_some_inv api stream bounded fuel url st ms st' h
          obtain ⟨hms_spec, hfin_spec⟩ := processRows_spec stream bounded page.results rms fin hrec
          rw [chainRows_some api fuel url page hapi]
          rcases hcase with ⟨hfin, hms, _⟩ | ⟨hfin, ms2, hrec2, hms⟩
          · subst hms
            rw [recordRows_state_cons, hms_spec, recordRows_map_fix]
            have hall : page.results.all (isFresh bounded) = false := by
              rw [hfin] at hfin_spec
              cases hall : page.results.all (isFresh bounded) with
              | true => rw [hall] at hfin_spec; simp at hfin_spec
              | false => rfl
            rw [takeWhile_append_of_not_all _ _ _ hall]
          · subst hms
            have hall : page.results.all (isFresh bounded) = true := by
              rw [hfin] at hfin_spec
              cases hall : page.results.all (isFresh bounded) with
              | true => rfl
              | false => rw [hall] at hfin_spec; simp at hfin_spec
            rw [recordRows_append, recordRows_state_cons, hms_spec, recordRows_map_fix,
              takeWhile_append_of_all _ _ _ hall, List.map_append,
              takeWhile_eq_self_of_all _ _ hall, ih page.next _ ms2 st' hrec2]

/-- Claim C1 (amended): for a successful entity pass with pre-pass
watermark W = boundedStart, the records emitted (in order) are exactly the
longest prefix of the concatenated fetched rows all of whose timestamps
are at or after W, each mapped through fix_extra_map: each such record is
emitted exactly once, no record with a timestamp before W is ever emitted,
and nothing after the first stale record of the pass is emitted. -/
theorem c1_amended (api : String → Option Page) (cfgStart now : Int) (fuel : Nat)
    (url : String) (st : SyncState) (ms : List Msg) (st' : SyncState) (s : String)
    (h : sync_endpoint api cfgStart now fuel url st = Except.ok (ms, st'))
    (hs : parse_stream_from_url url = Except.ok s) :
    recordRows s ms =
      ((chainRows api fuel (some url)).takeWhile
        (isFresh (boundedStart st cfgStart now))).map fix_extra_map := by
  obtain ⟨s0, ms1, hp, hms, hl⟩ :=
    sync_endpoint_ok_inv api cfgStart now fuel url st ms st' h
  rw [hp] at hs
  injection hs with hs0
  subst hs0
  subst hms
  rw [recordRows_schema_cons]
  exact syncLoop_records api _ (boundedStart st cfgStart now) fuel (some url) st ms1 st' hl

/-- Witness for C1 (amended): on a page whose rows are fresh, stale, fresh
(timestamps 100, 10, 200 against watermark 50), the pass emits exactly the
first row. -/
theorem c1_amended_witness :
    sync_endpoint c1wApi 50 50 10 addressesUrl
        { next := some addressesUrl, last := none, this := some 7 } =
      Except.ok
        ( [ Msg.schema "addresses"
          , Msg.state { next := some addressesUrl, last := none, this := some 7 }
          , Msg.record "addresses" c1wRow1 ]
        , { next := some addressesUrl, last := none, this := some 7 } )
    ∧ parse_stream_from_url addressesUrl = Except.ok "addresses"
    ∧ recordRows "addresses"
        [ Msg.schema "addresses"
        , Msg.state { next := some addressesUrl, last := none, this := some 7 }
        , Msg.record "addresses" c1wRow1 ] =
      ((chainRows c1wApi 10 (some addressesUrl)).takeWhile
        (isFresh (boundedStart { next := some addressesUrl, last := none, this := some 7 }
          50 50))).map fix_extra_map := by
  refine ⟨by decide, by decide, ?_⟩
  exact c1_amended c1wApi 50 50 10 addressesUrl
    { next := some addressesUrl, last := none, this := some 7 }
    [ Msg.schema "addresses"
    , Msg.state { next := some addressesUrl, last := none, this := some 7 }
    , Msg.record "addresses" c1wRow1 ]
    { next := some addressesUrl, last := none, this := some 7 }
    "addresses" (by decide) (by decide)

/-! ### Classification of emitted messages -/

lemma pred_of_mem_takeWhile {α : Type} (p : α → Bool) :
    ∀ (l : List α) (a : α), a ∈ l.takeWhile p → p a = true := by
  intro l
  induction l with
  | nil => intro a h; simp [List.takeWhile] at h
  | cons x xs ih =>
      intro a h
      by_cases hp : p x
      · rw [List.takeWhile_cons, if_pos hp] at h
        rcases List.mem_cons.mp h with h1 | h1
        · rw [h1]; exact hp
        · exact ih a h1
      · rw [List.takeWhile_cons, if_neg hp] at h
        simp at h

lemma isFresh_elim (bounded : Int) (r : Row) (h : isFresh bounded r = true) :
    ∃ u, rowUpdated r = some u ∧ bounded ≤ u := by
  unfold isFresh at h
  cases hu : rowUpdated r with
  | none => rw [hu] at h; simp at h
  | some u =>
      rw [hu] at h
      simp at h
      exact ⟨u, rfl, h⟩

lemma syncLoop_classify (api : String → Option Page) (stream : String) (bounded : Int) :
    ∀ fuel url st ms st',
      syncLoop api stream bounded fuel url st = Except.ok (ms, st') →
      (st'.last = st.last ∧ st'.this = st.this) ∧
      ∀ m ∈ ms,
        (∃ s1 u, m = Msg.state s1 ∧ s1.next = some u ∧ s1.last = st.last ∧
          s1.this = st.this) ∨
        (∃ r u, m = Msg.record stream (fix_extra_map r) ∧ rowUpdated r = some u ∧
          bounded ≤ u) := by
  intro fuel
  induction fuel with
  | zero =>
      intro url st ms st' h
      obtain ⟨h1, h2⟩ := syncLoop_zero_inv api stream bounded url st ms st' h
      subst h1
      subst h2
      exact ⟨⟨rfl, rfl⟩, by intro m hm; simp at hm⟩
  | succ fuel ih =>
      intro url st ms st' h
      cases url with
      | none =>
          obtain ⟨h1, h2⟩ := syncLoop_none_inv api stream bounded fuel st ms st' h
          subst h1
          subst h2
          exact ⟨⟨rfl, rfl⟩, by intro m hm; simp at hm⟩
      | some url =>
          obtain ⟨page, rms, fin, hapi, hrec, hcase⟩ :=
            syncLoop_some_inv api stream bounded fuel url st ms st' h
          obtain ⟨hms_spec, _⟩ := processRows_spec stream bounded page.results rms fin hrec
          have hrms : ∀ m ∈ rms,
              ∃ r u, m = Msg.record stream (fix_extra_map r) ∧ rowUpdated r = some u ∧
                bounded ≤ u := by
            intro m hm
            rw [hms_spec] at hm
            obtain ⟨r, hr, hmr⟩ := List.mem_map.mp hm
            have hf := pred_of_mem_takeWhile (isFresh bounded) page.results r hr
            obtain ⟨u, hu, hb⟩ := isFresh_elim bounded r hf
            exact ⟨r, u, hmr.symm, hu, hb⟩
          rcases hcase with ⟨_, hms, hst⟩ | ⟨_, ms2, hrec2, hms⟩
          · subst hms
            subst hst
            refine ⟨⟨rfl, rfl⟩, ?_⟩
            intro m hm
            rcases List.mem_cons.mp hm with h1 | h1
            · exact Or.inl ⟨{ st with next := some url }, url, h1, rfl, rfl, rfl⟩
            · exact Or.inr (hrms m h1)
          · subst hms
            obtain ⟨⟨ihl, iht⟩, ihm⟩ := ih page.next { st with next := some url } ms2 st' hrec2
            refine ⟨⟨ihl, iht⟩, ?_⟩
            intro m hm
            rcases List.mem_append.mp hm with h1 | h1
            · rcases List.mem_cons.mp h1 with h2 | h2
              · exact Or.inl ⟨{ st with next := some url }, url, h2, rfl, rfl, rfl⟩
              · exact Or.inr (hrms m h2)
            · exact ihm m h1

lemma boundedStart_congr (st1 st : SyncState) (h : st1.last = st.last) (c n : Int) :
    boundedStart st1 c n = boundedStart st c n := by
  unfold boundedStart startOf
  rw [h]

lemma syncUrls_classify (api : String → Option Page) (cfgStart now : Int) (fuel : Nat) :
    ∀ urls st ms st',
      syncUrls api cfgStart now fuel urls st = Except.ok (ms, st') →
      (st'.last = st.last ∧ st'.this = st.this) ∧
      ∀ m ∈ ms,
        (∃ s, m = Msg.schema s ∧ ∃ u, u ∈ urls ∧ parse_stream_from_url u = Except.ok s) ∨
        (∃ s1 u, m = Msg.state s1 ∧ s1.next = some u ∧ s1.last = st.last ∧
          s1.this = st.this) ∨
        (∃ s0 r u2, m = Msg.record s0 (fix_extra_map r) ∧ rowUpdated r = some u2 ∧
          boundedStart st cfgStart now ≤ u2) := by
  intro urls
  induction urls with
  | nil =>
      intro st ms st' h
      obtain ⟨h1, h2⟩ := syncUrls_nil_inv api cfgStart now fuel st ms st' h
      subst h1
      subst h2
      exact ⟨⟨rfl, rfl⟩, by intro m hm; simp at hm⟩
  | cons u us ih =>
      intro st ms st' h
      obtain ⟨ms1, st1, ms2, h1, h2, hms⟩ :=
        syncUrls_cons_inv api cfgStart now fuel u us st ms st' h
      subst hms
      obtain ⟨s, msL, hp, hms1, hl⟩ :=
        sync_endpoint_ok_inv api cfgStart now fuel u st ms1 st1 h1
      subst hms1
      obtain ⟨⟨pl, pt⟩, hclassL⟩ :=
        syncLoop_classify api s (boundedStart st cfgStart now) fuel (some u) st msL st1 hl
      obtain ⟨⟨ql, qt⟩, hclass2⟩ := ih st1 ms2 st' h2
      refine ⟨⟨by rw [ql, pl], by rw [qt, pt]⟩, ?_⟩
      intro m hm
      rcases List.mem_append.mp hm with hA | hB
      · rcases List.mem_cons.mp hA with h3 | h3
        · exact Or.inl ⟨s, h3, u, List.mem_cons_self u us, hp⟩
        · rcases hclassL m h3 with ⟨s1, u1, hm1, hn1, hl1, ht1⟩ | ⟨r, u2, hm1, hu1, hb1⟩
          · exact Or.inr (Or.inl ⟨s1, u1, hm1, hn1, hl1, ht1⟩)
          · exact Or.inr (Or.inr ⟨s, r, u2, hm1, hu1, hb1⟩)
      · rcases hclass2 m hB with ⟨s0, hm1, u0, hu0, hp0⟩ |
            ⟨s1, u1, hm1, hn1, hl1, ht1⟩ | ⟨s0, r, u2, hm1, hu1, hb1⟩
        · exact Or.inl ⟨s0, hm1, u0, List.mem_cons_of_mem u hu0, hp0⟩
        · exact Or.inr (Or.inl ⟨s1, u1, hm1, hn1, by rw [hl1, pl], by rw [ht1, pt]⟩)
        · exact Or.inr (Or.inr ⟨s0, r, u2, hm1, hu1, by
            rw [boundedStart_congr st1 st pl cfgStart now] at hb1
            exact hb1⟩)

/-! ### Claim C4 (amended): the resume URL is cleared only at end of run -/

lemma dropLast_append_single {α : Type} (l : List α) (a : α) :
    (l ++ [a]).dropLast = l := by simp

lemma getLast_append_single {α : Type} (l : List α) (a : α) :
    (l ++ [a]).getLast? = some a := by simp

/-- Claim C4 (amended): in every successful run, the resume URL is set to
null exactly once, by the final end-of-run checkpoint (whose state also has
a cleared this_start_date); every checkpoint before it — including the one
following a non-final entity's terminal page, which is the next entity's
first-page checkpoint — carries the non-null URL of a page, so no
checkpoint between a non-final entity's terminal page and the next entity
has a null cursor. -/
theorem c4_amended (api : String → Option Page) (cfgStart now : Int) (fuel : Nat)
    (st : SyncState) (ms : List Msg) (st2 : SyncState)
    (h : do_sync api cfgStart now fuel st = Except.ok (ms, st2)) :
    st2.next = none ∧ ms.getLast? = some (Msg.state st2) ∧
      ∀ m ∈ ms.dropLast, ∀ s1, m = Msg.state s1 → s1.next ≠ none := by
  obtain ⟨urls, msu, st', hg, hs, hms, hst2⟩ := do_sync_ok_inv api cfgStart now fuel st ms st2 h
  subst hms
  refine ⟨by rw [hst2], getLast_append_single msu (Msg.state st2), ?_⟩
  rw [dropLast_append_single]
  intro m hm s1 hm1
  obtain ⟨_, hclass⟩ := syncUrls_classify api cfgStart now fuel urls st msu st' hs
  rcases hclass m hm with ⟨s0, hm2, _⟩ | ⟨s1', u1, hm2, hn1, _, _⟩ | ⟨s0, r, u2, hm2, _, _⟩
  · rw [hm1] at hm2; cases hm2
  · rw [hm1] at hm2
    injection hm2 with hm3
    rw [hm3, hn1]
    intro hc
    cases hc
  · rw [hm1] at hm2; cases hm2

/-- Witness for C4 (amended): the two-entity run of the C4 fixture has its
final checkpoint with a null cursor and every earlier checkpoint with a
page URL. -/
theorem c4_amended_witness :
    do_sync c4Api 0 0 10 c4St = Except.ok (c4Msgs, c4Fin)
    ∧ (c4Fin.next = none ∧ c4Msgs.getLast? = some (Msg.state c4Fin) ∧
        ∀ m ∈ c4Msgs.dropLast, ∀ s1, m = Msg.state s1 → s1.next ≠ none) :=
  ⟨by decide, c4_amended c4Api 0 0 10 c4St c4Msgs c4Fin (by decide)⟩

/-! ### Claim C5 (amended): checkpoints delimit pages -/

/-- The pagination loop refines the LoopTrace relation: every successful
run's messages decompose into per-page blocks, each opened by the single
checkpoint of that page (carrying the fetched URL) and followed by the
page's fresh records; after a page processed without a stale row the
continuation starts at that page's next-page pointer, so the checkpoint
that follows a non-terminal fully-fresh page carries exactly that page's
next pointer, and no checkpoint is emitted in the middle of a page. -/
lemma syncLoop_trace (api : String → Option Page) (stream : String) (bounded : Int) :
    ∀ fuel url st ms st',
      syncLoop api stream bounded fuel url st = Except.ok (ms, st') →
      LoopTrace api stream bounded url st ms st' := by
  intro fuel
  induction fuel with
  | zero =>
      intro url st ms st' h
      obtain ⟨h1, h2⟩ := syncLoop_zero_inv api stream bounded url st ms st' h
      rw [h1, h2]
      exact LoopTrace.stop url st
  | succ fuel ih =>
      intro url st ms st' h
      cases url with
      | none =>
          obtain ⟨h1, h2⟩ := syncLoop_none_inv api stream bounded fuel st ms st' h
          rw [h1, h2]
          exact LoopTrace.stop none st
      | some url =>
          obtain ⟨page, rms, fin, hapi, hrec, hcase⟩ :=
            syncLoop_some_inv api stream bounded fuel url st ms st' h
          rcases hcase with ⟨hfin, hms, hst⟩ | ⟨hfin, ms2, hrec2, hms⟩
          · subst hms
            subst hst
            subst hfin
            exact LoopTrace.finish url st page rms hapi hrec
          · subst hms
            subst hfin
            exact LoopTrace.step url st page rms ms2 st' hapi hrec
              (ih page.next { st with next := some url } ms2 st' hrec2)

/-- Claim C5 (amended): a successful entity pass emits its schema message
followed by a LoopTrace: one checkpoint per fetched page, emitted at the
page boundary and carrying that page's URL, with the records of each page
between that page's checkpoint and the next one; the checkpoint following a
fully-fresh page's records carries that page's next-page pointer, and no
checkpoint reflects a partially-evaluated page.  After a terminal page the
trace simply stops: the null next pointer is never checkpointed inside the
pass. -/
theorem c5_amended (api : String → Option Page) (cfgStart now : Int) (fuel : Nat)
    (url : String) (st : SyncState) (ms : List Msg) (st' : SyncState) (s : String)
    (h : sync_endpoint api cfgStart now fuel url st = Except.ok (ms, st'))
    (hs : parse_stream_from_url url = Except.ok s) :
    ∃ ms1, ms = Msg.schema s :: ms1 ∧
      LoopTrace api s (boundedStart st cfgStart now) (some url) st ms1 st' := by
  obtain ⟨s0, ms1, hp, hms, hl⟩ := sync_endpoint_ok_inv api cfgStart now fuel url st ms st' h
  rw [hp] at hs
  injection hs with hs0
  subst hs0
  exact ⟨ms1, hms, syncLoop_trace api _ (boundedStart st cfgStart now) fuel (some url)
    st ms1 st' hl⟩

/-- Witness for C5 (amended): the two-page parcels pass of the C5 fixture
produces a schema message followed by a trace of two page blocks. -/
theorem c5_amended_witness :
    sync_endpoint c5Api 0 0 10 c5P1 c5St =
      Except.ok
        ( [ Msg.schema "parcels", Msg.state c5St, Msg.record "parcels" c5Row1
          , Msg.state c5StA, Msg.record "parcels" c5Row2 ]
        , c5StA )
    ∧ parse_stream_from_url c5P1 = Except.ok "parcels"
    ∧ ∃ ms1,
        ([ Msg.schema "parcels", Msg.state c5St, Msg.record "parcels" c5Row1
         , Msg.state c5StA, Msg.record "parcels" c5Row2 ] : List Msg) =
          Msg.schema "parcels" :: ms1 ∧
        LoopTrace c5Api "parcels" (boundedStart c5St 0 0) (some c5P1) c5St ms1 c5StA := by
  refine ⟨by decide, by decide, ?_⟩
  exact c5_amended c5Api 0 0 10 c5P1 c5St
    [ Msg.schema "parcels", Msg.state c5St, Msg.record "parcels" c5Row1
    , Msg.state c5StA, Msg.record "parcels" c5Row2 ]
    c5StA "parcels" (by decide) (by decide)

/-! ### Claim C6: the persisted watermark never decreases -/

/-- Claim C6: across a complete run (main followed by do_sync), the
persisted last_start_date — the stored watermark every entity's filter is
derived from — never decreases: if it was l before the run, dates recorded
in the state are consistent (an interrupted this_start_date is no older
than l) and the clock has not gone backwards (l is no later than now), then
after the run it holds some value at least l. -/
theorem c6_watermark_monotone (api : String → Option Page) (cfgStart now : Int)
    (fuel : Nat) (st : SyncState) (ms : List Msg) (st2 : SyncState) (l : Int)
    (h : main_model api cfgStart now fuel st = Except.ok (ms, st2))
    (hl : st.last = some l)
    (hthis : ∀ t, st.this = some t → l ≤ t)
    (hnow : l ≤ now) :
    ∃ t2, st2.last = some t2 ∧ l ≤ t2 := by
  unfold main_model at h
  by_cases ht : st.this = none
  · rw [if_pos ht] at h
    obtain ⟨urls, msu, st', hg, hs, hms, hst2⟩ :=
      do_sync_ok_inv api cfgStart now fuel { st with this := some now } ms st2 h
    obtain ⟨⟨_, pt⟩, _⟩ :=
      syncUrls_classify api cfgStart now fuel urls { st with this := some now } msu st' hs
    refine ⟨now, ?_, hnow⟩
    rw [hst2]
    show st'.this = some now
    rw [pt]
  · rw [if_neg ht] at h
    obtain ⟨t, htv⟩ := Option.ne_none_iff_exists'.mp ht
    obtain ⟨urls, msu, st', hg, hs, hms, hst2⟩ :=
      do_sync_ok_inv api cfgStart now fuel st ms st2 h
    obtain ⟨⟨_, pt⟩, _⟩ := syncUrls_classify api cfgStart now fuel urls st msu st' hs
    refine ⟨t, ?_, hthis t htv⟩
    rw [hst2]
    show st'.this = some t
    rw [pt, htv]

/-- Witness for C6: a run over empty pages started at time 9 with a prior
watermark 5 persists watermark 9. -/
theorem c6_watermark_monotone_witness :
    main_model c6Api 0 9 10 { next := none, last := some 5, this := none } =
      Except.ok (c6Msgs, { next := none, last := some 9, this := none })
    ∧ ({ next := none, last := some 5, this := none } : SyncState).last = some 5
    ∧ (∀ t : Int,
        ({ next := none, last := some 5, this := none } : SyncState).this = some t →
          (5 : Int) ≤ t)
    ∧ (5 : Int) ≤ 9
    ∧ ∃ t2, ({ next := none, last := some 9, this := none } : SyncState).last = some t2 ∧
        (5 : Int) ≤ t2 := by
  have hrun : main_model c6Api 0 9 10 { next := none, last := some 5, this := none } =
      Except.ok (c6Msgs, { next := none, last := some 9, this := none }) := by decide
  refine ⟨hrun, rfl, ?_, by decide, ?_⟩
  · intro t ht
    cases ht
  · obtain ⟨t2, h1, h2⟩ := c6_watermark_monotone c6Api 0 9 10
      { next := none, last := some 5, this := none } c6Msgs
      { next := none, last := some 9, this := none } 5 hrun rfl
      (by intro t ht; cases ht) (by decide)
    exact ⟨t2, h1, h2⟩

/-! ### Claim C9: the sixty-day window bounds every emitted record -/

/-- Claim C9: every record emitted anywhere in a run has a parseable
object_updated timestamp that is at least the effective filter
boundedStart, which is the maximum of the configured-or-resumed start (the
resumed last_start_date padded back two days) and sixty days before now;
consequently it is no older than the start and no older than sixty days
before the run. -/
theorem c9_sixty_day_window (api : String → Option Page) (cfgStart now : Int)
    (fuel : Nat) (st : SyncState) (ms : List Msg) (st2 : SyncState) (s : String)
    (row : Row)
    (h : do_sync api cfgStart now fuel st = Except.ok (ms, st2))
    (hmem : Msg.record s row ∈ ms) :
    ∃ u, rowUpdated row = some u ∧ boundedStart st cfgStart now ≤ u ∧
      startOf st cfgStart ≤ u ∧ now - 60 * daySeconds ≤ u := by
  obtain ⟨urls, msu, st', hg, hs, hms, hst2⟩ := do_sync_ok_inv api cfgStart now fuel st ms st2 h
  subst hms
  rcases List.mem_append.mp hmem with h1 | h1
  · obtain ⟨_, hclass⟩ := syncUrls_classify api cfgStart now fuel urls st msu st' hs
    rcases hclass _ h1 with ⟨s0, hm2, _⟩ | ⟨s1, u1, hm2, _, _, _⟩ | ⟨s0, r, u2, hm2, hu, hb⟩
    · cases hm2
    · cases hm2
    · injection hm2 with hm3 hm4
      subst hm4
      refine ⟨u2, ?_, hb, ?_, ?_⟩
      · rw [rowUpdated_fix_extra_map, hu]
      · exact le_trans (le_max_left (startOf st cfgStart) (now - 60 * daySeconds)) hb
      · exact le_trans (le_max_right (startOf st cfgStart) (now - 60 * daySeconds)) hb
  · rcases List.mem_cons.mp h1 with h2 | h2
    · cases h2
    · simp at h2

/-- Witness for C9: the parcels record of the C4 fixture run is bounded by
the effective filter timestamp. -/
theorem c9_sixty_day_window_witness :
    do_sync c4Api 0 0 10 c4St = Except.ok (c4Msgs, c4Fin)
    ∧ Msg.record "parcels" c4Row1 ∈ c4Msgs
    ∧ ∃ u, rowUpdated c4Row1 = some u ∧ boundedStart c4St 0 0 ≤ u ∧
        startOf c4St 0 ≤ u ∧ (0 : Int) - 60 * daySeconds ≤ u := by
  refine ⟨by decide, by decide, ?_⟩
  exact c9_sixty_day_window c4Api 0 0 10 c4St c4Msgs c4Fin "parcels" c4Row1
    (by decide) (by decide)

/-! ### Claim C8: one schema declaration per entity, before its records -/

lemma pickUrls_no_match (target nxt : String)
    (h1 : target ≠ "transactions") (h2 : target ≠ "refunds")
    (h3 : target ≠ "shipments") (h4 : target ≠ "parcels")
    (h5 : target ≠ "addresses") :
    pickUrls target nxt false ENDPOINTS = Except.ok [] := by
  simp [ENDPOINTS, pickUrls, parse_endpoint_transactions, parse_endpoint_refunds,
    parse_endpoint_shipments, parse_endpoint_parcels, parse_endpoint_addresses,
    Ne.symm h1, Ne.symm h2, Ne.symm h3, Ne.symm h4, Ne.symm h5]

lemma gsu_no_match (nxt : String) (l t : Option Int) (target : String)
    (h : parse_stream_from_url nxt = Except.ok target)
    (h1 : target ≠ "transactions") (h2 : target ≠ "refunds")
    (h3 : target ≠ "shipments") (h4 : target ≠ "parcels")
    (h5 : target ≠ "addresses") :
    get_starting_urls { next := some nxt, last := l, this := t } =
      Except.error ("Unknown stream " ++ target) := by
  rw [get_starting_urls_some, h]
  show (match pickUrls target nxt false ENDPOINTS with
        | Except.error e => Except.error e
        | Except.ok [] => Except.error ("Unknown stream " ++ target)
        | Except.ok urls => Except.ok urls) =
      Except.error ("Unknown stream " ++ target)
  rw [pickUrls_no_match target nxt h1 h2 h3 h4 h5]

lemma gsu_transactions (nxt : String) (l t : Option Int)
    (h : parse_stream_from_url nxt = Except.ok "transactions") :
    get_starting_urls { next := some nxt, last := l, this := t } =
      Except.ok (nxt :: ENDPOINTS.drop 1) := by
  rw [get_starting_urls_some, h]
  rfl

lemma gsu_refunds (nxt : String) (l t : Option Int)
    (h : parse_stream_from_url nxt = Except.ok "refunds") :
    get_starting_urls { next := some nxt, last := l, this := t } =
      Except.ok (nxt :: ENDPOINTS.drop 2) := by
  rw [get_starting_urls_some, h]
  rfl

lemma gsu_shipments (nxt : String) (l t : Option Int)
    (h : parse_stream_from_url nxt = Except.ok "shipments") :
    get_starting_urls { next := some nxt, last := l, this := t } =
      Except.ok (nxt :: ENDPOINTS.drop 3) := by
  rw [get_starting_urls_some, h]
  rfl

lemma gsu_parcels (nxt : String) (l t : Option Int)
    (h : parse_stream_from_url nxt = Except.ok "parcels") :
    get_starting_urls { next := some nxt, last := l, this := t } =
      Except.ok (nxt :: ENDPOINTS.drop 4) := by
  rw [get_starting_urls_some, h]
  rfl

lemma gsu_addresses (nxt : String) (l t : Option Int)
    (h : parse_stream_from_url nxt = Except.ok "addresses") :
    get_starting_urls { next := some nxt, last := l, this := t } =
      Except.ok [nxt] := by
  rw [get_starting_urls_some, h]
  rfl

lemma endpoints_parse_ok : ∀ v ∈ ENDPOINTS, ∃ w, parse_stream_from_url v = Except.ok w := by
  intro v hv
  simp only [ENDPOINTS, List.mem_cons, List.not_mem_nil, or_false] at hv
  rcases hv with h | h | h | h | h
  · exact ⟨"transactions", by rw [h]; decide⟩
  · exact ⟨"refunds", by rw [h]; decide⟩
  · exact ⟨"shipments", by rw [h]; decide⟩
  · exact ⟨"parcels", by rw [h]; decide⟩
  · exact ⟨"addresses", by rw [h]; decide⟩

/-- The URL list produced by get_starting_urls always consists of URLs that
parse to streams, and those streams are pairwise distinct. -/
lemma starting_urls_streams (st : SyncState) (urls : List String)
    (h : get_starting_urls st = Except.ok urls) :
    (∀ v ∈ urls, ∃ w, parse_stream_from_url v = Except.ok w) ∧
    (urls.map parse_stream_from_url).Nodup := by
  obtain ⟨nv, lv, tv⟩ := st
  cases nv with
  | none =>
      have hu : urls = ENDPOINTS := by
        have h2 : (Except.ok ENDPOINTS : Except String (List String)) = Except.ok urls := h
        injection h2 with h3
        exact h3.symm
      subst hu
      exact ⟨endpoints_parse_ok, by decide⟩
  | some nxt =>
      cases hp : parse_stream_from_url nxt with
      | error e =>
          rw [get_starting_urls_some, hp] at h
          cases h
      | ok target =>
          have tailFacts : ∀ k, urls = nxt :: ENDPOINTS.drop k →
              ∀ v ∈ urls, ∃ w, parse_stream_from_url v = Except.ok w := by
            intro k hk v hv
            subst hk
            rcases List.mem_cons.mp hv with h1 | h1
            · exact ⟨target, h1 ▸ hp⟩
            · exact endpoints_parse_ok v (List.drop_subset k ENDPOINTS h1)
          by_cases h1 : target = "transactions"
          · subst h1
            rw [gsu_transactions nxt lv tv hp] at h
            injection h with h2
            subst h2
            refine ⟨tailFacts 1 rfl, ?_⟩
            rw [List.map_cons, hp]
            decide
          · by_cases h2 : target = "refunds"
            · subst h2
              rw [gsu_refunds nxt lv tv hp] at h
              injection h with h3
              subst h3
              refine ⟨tailFacts 2 rfl, ?_⟩
              rw [List.map_cons, hp]
              decide
            · by_cases h3 : target = "shipments"
              · subst h3
                rw [gsu_shipments nxt lv tv hp] at h
                injection h with h4
                subst h4
                refine ⟨tailFacts 3 rfl, ?_⟩
                rw [List.map_cons, hp]
                decide
              · by_cases h4 : target = "parcels"
                · subst h4
                  rw [gsu_parcels nxt lv tv hp] at h
                  injection h with h5
                  subst h5
                  refine ⟨tailFacts 4 rfl, ?_⟩
                  rw [List.map_cons, hp]
                  decide
                · by_cases h5 : target = "addresses"
                  · subst h5
                    rw [gsu_addresses nxt lv tv hp] at h
                    injection h with h6
                    subst h6
                    constructor
                    · intro v hv
                      rcases List.mem_cons.mp hv with hv1 | hv1
                      · exact ⟨"addresses", hv1 ▸ hp⟩
                      · simp at hv1
                    · rw [List.map_cons, hp]
                      simp
                  · rw [gsu_no_match nxt lv tv target hp h1 h2 h3 h4 h5] at h
                    cases h

lemma countSchema_cons (s : String) (m : Msg) (ms : List Msg) :
    countSchema s (m :: ms) =
      (if isSchemaOf s m then 1 else 0) + countSchema s ms := by
  unfold countSchema
  rw [List.filter_cons]
  by_cases hm : isSchemaOf s m <;> simp [hm, Nat.add_comm]

lemma countSchema_append (s : String) (a b : List Msg) :
    countSchema s (a ++ b) = countSchema s a + countSchema s b := by
  unfold countSchema
  rw [List.filter_append, List.length_append]

lemma countSchema_zero_of (s : String) :
    ∀ ms : List Msg, (∀ m ∈ ms, isSchemaOf s m = false) → countSchema s ms = 0 := by
  intro ms
  induction ms with
  | nil => intro _; rfl
  | cons m ms ih =>
      intro h
      rw [countSchema_cons, if_neg (by rw [h m (List.mem_cons_self m ms)]; exact
        Bool.false_ne_true), ih (fun m1 hm1 => h m1 (List.mem_cons_of_mem m hm1))]

lemma schemaFirst_cons (s : String) (m : Msg) (ms : List Msg) :
    schemaFirst s (m :: ms) =
      if isSchemaOf s m then true
      else if isRecordOf s m then false
      else schemaFirst s ms := rfl

lemma schemaFirst_cons_schema_self (s : String) (ms : List Msg) :
    schemaFirst s (Msg.schema s :: ms) = true := by
  rw [schemaFirst_cons, if_pos (by simp [isSchemaOf])]

lemma schemaFirst_cons_skip (s : String) (m : Msg) (ms : List Msg)
    (h1 : isSchemaOf s m = false) (h2 : isRecordOf s m = false) :
    schemaFirst s (m :: ms) = schemaFirst s ms := by
  rw [schemaFirst_cons, if_neg (by rw [h1]; exact Bool.false_ne_true),
    if_neg (by rw [h2]; exact Bool.false_ne_true)]

lemma schemaFirst_skip_all (s : String) :
    ∀ a b : List Msg,
      (∀ m ∈ a, isSchemaOf s m = false ∧ isRecordOf s m = false) →
      schemaFirst s (a ++ b) = schemaFirst s b := by
  intro a b
  induction a with
  | nil => intro _; rfl
  | cons m a ih =>
      intro h
      obtain ⟨h1, h2⟩ := h m (List.mem_cons_self m a)
      rw [List.cons_append, schemaFirst_cons_skip s m (a ++ b) h1 h2,
        ih (fun m1 hm1 => h m1 (List.mem_cons_of_mem m hm1))]

lemma schemaFirst_append_state (s : String) :
    ∀ (a : List Msg) (st1 : SyncState),
      schemaFirst s (a ++ [Msg.state st1]) = schemaFirst s a := by
  intro a st1
  induction a with
  | nil => rfl
  | cons m a ih => rw [List.cons_append, schemaFirst_cons, schemaFirst_cons, ih]

/-- The messages of one entity block neither declare nor record a stream
other than the block's own. -/
lemma syncLoop_block_other (api : String → Option Page) (s0 : String) (bounded : Int)
    (fuel : Nat) (url : Option String) (st : SyncState) (msL : List Msg)
    (st1 : SyncState) (s : String)
    (hl : syncLoop api s0 bounded fuel url st = Except.ok (msL, st1))
    (hne : s0 ≠ s) :
    ∀ m ∈ msL, isSchemaOf s m = false ∧ isRecordOf s m = false := by
  obtain ⟨_, hclass⟩ := syncLoop_classify api s0 bounded fuel url st msL st1 hl
  intro m hm
  rcases hclass m hm with ⟨s1, u1, hm1, _⟩ | ⟨r, u2, hm1, _⟩
  · subst hm1
    exact ⟨rfl, rfl⟩
  · subst hm1
    refine ⟨rfl, ?_⟩
    simp [isRecordOf]
    exact hne

/-- The messages of a block emit no schema declaration at all beyond the
head: the loop yields only state and record messages. -/
lemma syncLoop_no_schema (api : String → Option Page) (s0 : String) (bounded : Int)
    (fuel : Nat) (url : Option String) (st : SyncState) (msL : List Msg)
    (st1 : SyncState) (s : String)
    (hl : syncLoop api s0 bounded fuel url st = Except.ok (msL, st1)) :
    ∀ m ∈ msL, isSchemaOf s m = false := by
  obtain ⟨_, hclass⟩ := syncLoop_classify api s0 bounded fuel url st msL st1 hl
  intro m hm
  rcases hclass m hm with ⟨s1, u1, hm1, _⟩ | ⟨r, u2, hm1, _⟩
  · subst hm1; rfl
  · subst hm1; rfl

/-- In the cons decomposition of the URL list around the unique URL of
stream s, the sync emits exactly one schema declaration of s and no record
of s before it. -/
lemma syncUrls_count (api : String → Option Page) (cfgStart now : Int) (fuel : Nat)
    (s : String) :
    ∀ (pre : List String) (u : String) (post : List String) (st : SyncState)
      (ms : List Msg) (st' : SyncState),
      syncUrls api cfgStart now fuel (pre ++ u :: post) st = Except.ok (ms, st') →
      parse_stream_from_url u = Except.ok s →
      (∀ v ∈ pre, parse_stream_from_url v ≠ Except.ok s) →
      (∀ v ∈ post, parse_stream_from_url v ≠ Except.ok s) →
      countSchema s ms = 1 ∧ schemaFirst s ms = true := by
  intro pre
  induction pre with
  | nil =>
      intro u post st ms st' h hu hpre hpost
      rw [List.nil_append] at h
      obtain ⟨ms1, st1, ms2, h1, h2, hms⟩ :=
        syncUrls_cons_inv api cfgStart now fuel u post st ms st' h
      subst hms
      obtain ⟨s0, msL, hp, hms1, hl⟩ :=
        sync_endpoint_ok_inv api cfgStart now fuel u st ms1 st1 h1
      have hs0 : s = s0 := by
        rw [hu] at hp
        exact Except.ok.inj hp
      subst hs0
      subst hms1
      have hnoL : ∀ m ∈ msL, isSchemaOf s m = false :=
        syncLoop_no_schema api s (boundedStart st cfgStart now) fuel (some u) st msL
          st1 s hl
      have hno2 : ∀ m ∈ ms2, isSchemaOf s m = false := by
        intro m hm
        obtain ⟨_, hclass⟩ := syncUrls_classify api cfgStart now fuel post st1 ms2 st' h2
        rcases hclass m hm with ⟨t, hmt, w, hw, hpw⟩ | ⟨s1, u1, hmt, _⟩ |
            ⟨t, r, u2, hmt, _⟩
        · subst hmt
          by_cases hts : t = s
          · exact absurd (hts ▸ hpw) (hpost w hw)
          · simp [isSchemaOf]
            exact hts
        · subst hmt; rfl
        · subst hmt; rfl
      constructor
      · rw [List.cons_append, countSchema_cons,
          if_pos (by simp [isSchemaOf]), countSchema_append,
          countSchema_zero_of s msL hnoL, countSchema_zero_of s ms2 hno2]
      · rw [List.cons_append, schemaFirst_cons_schema_self]
  | cons v pre ih =>
      intro u post st ms st' h hu hpre hpost
      rw [List.cons_append] at h
      obtain ⟨ms1, st1, ms2, h1, h2, hms⟩ :=
        syncUrls_cons_inv api cfgStart now fuel v (pre ++ u :: post) st ms st' h
      subst hms
      obtain ⟨s0, msL, hp, hms1, hl⟩ :=
        sync_endpoint_ok_inv api cfgStart now fuel v st ms1 st1 h1
      subst hms1
      have hs0 : s0 ≠ s := by
        intro he
        exact hpre v (List.mem_cons_self v pre) (he ▸ hp)
      have hblock : ∀ m ∈ Msg.schema s0 :: msL,
          isSchemaOf s m = false ∧ isRecordOf s m = false := by
        intro m hm
        rcases List.mem_cons.mp hm with h3 | h3
        · subst h3
          refine ⟨?_, rfl⟩
          simp [isSchemaOf]
          exact hs0
        · exact syncLoop_block_other api s0 (boundedStart st cfgStart now) fuel (some v)
            st msL st1 s hl hs0 m h3
      have hcount0 : countSchema s (Msg.schema s0 :: msL) = 0 :=
        countSchema_zero_of s (Msg.schema s0 :: msL) (fun m hm => (hblock m hm).1)
      obtain ⟨ihc, ihf⟩ := ih u post st1 ms2 st' h2 hu
        (fun w hw => hpre w (List.mem_cons_of_mem v hw)) hpost
      constructor
      · rw [countSchema_append, hcount0, ihc]
      · rw [schemaFirst_skip_all s (Msg.schema s0 :: msL) ms2 hblock, ihf]

/-- Claim C8: for every URL of the starting list (hence for every entity
processed in the run), exactly one schema declaration of its stream is
emitted during the run, and scanning the emitted messages in order the
schema declaration of that stream comes before any record of that
stream. -/
theorem c8_schema_once (api : String → Option Page) (cfgStart now : Int) (fuel : Nat)
    (st : SyncState) (ms : List Msg) (st2 : SyncState) (urls : List String)
    (u : String) (s : String)
    (h : do_sync api cfgStart now fuel st = Except.ok (ms, st2))
    (hg : get_starting_urls st = Except.ok urls)
    (hmem : u ∈ urls)
    (hs : parse_stream_from_url u = Except.ok s) :
    countSchema s ms = 1 ∧ schemaFirst s ms = true := by
  obtain ⟨urls', msu, st', hg', hsyn, hms, hst2⟩ :=
    do_sync_ok_inv api cfgStart now fuel st ms st2 h
  have hurls : urls' = urls := by
    rw [hg] at hg'
    injection hg' with h2
    exact h2.symm
  subst hurls
  obtain ⟨pre, post, hsplit⟩ := List.append_of_mem hmem
  subst hsplit
  obtain ⟨_, hnodup⟩ := starting_urls_streams st (pre ++ u :: post) hg
  rw [List.map_append, List.map_cons] at hnodup
  rw [List.nodup_append] at hnodup
  obtain ⟨_, hn2, hdisj⟩ := hnodup
  rw [List.nodup_cons] at hn2
  have hpre : ∀ v ∈ pre, parse_stream_from_url v ≠ Except.ok s := by
    intro v hv hc
    have hvin : parse_stream_from_url v ∈ pre.map parse_stream_from_url :=
      List.mem_map.mpr ⟨v, hv, rfl⟩
    have : parse_stream_from_url v ∈
        parse_stream_from_url u :: post.map parse_stream_from_url := by
      rw [hc, ← hs]
      exact List.mem_cons_self _ _
    exact hdisj hvin this
  have hpost : ∀ v ∈ post, parse_stream_from_url v ≠ Except.ok s := by
    intro v hv hc
    have hvin : parse_stream_from_url v ∈ post.map parse_stream_from_url :=
      List.mem_map.mpr ⟨v, hv, rfl⟩
    rw [hc, ← hs] at hvin
    exact hn2.1 hvin
  obtain ⟨hc, hf⟩ := syncUrls_count api cfgStart now fuel s pre u post st msu st' hsyn
    hs hpre hpost
  subst hms
  constructor
  · rw [countSchema_append, hc]
    rfl
  · rw [schemaFirst_append_state s msu st2, hf]

/-- Witness for C8: in the two-entity run of the C4 fixture, the parcels
stream gets exactly one schema declaration and it precedes its record. -/
theorem c8_schema_once_witness :
    do_sync c4Api 0 0 10 c4St = Except.ok (c4Msgs, c4Fin)
    ∧ get_starting_urls c4St = Except.ok [c4Cursor, addressesUrl]
    ∧ c4Cursor ∈ [c4Cursor, addressesUrl]
    ∧ parse_stream_from_url c4Cursor = Except.ok "parcels"
    ∧ countSchema "parcels" c4Msgs = 1 ∧ schemaFirst "parcels" c4Msgs = true := by
  refine ⟨by decide, by decide, by decide, by decide, ?_⟩
  exact c8_schema_once c4Api 0 0 10 c4St c4Msgs c4Fin [c4Cursor, addressesUrl]
    c4Cursor "parcels" (by decide) (by decide) (by decide) (by decide)

end TapShippo
